import Mathlib

/-!
Verification of the LeKiwi control core: a shallow embedding in Lean 4 of the
motion-translation and calibration engine (sign-magnitude register codec,
omnidirectional-base kinematics, safety clamping, calibration finalization,
and the action/observation pipeline), together with proofs of the spec's
testable properties.

Sources embedded:
- lekiwi_control/motors/encoding_utils.py (codec)
- lekiwi_control/robot/lekiwi.py (kinematics, clamp, calibrate, pipeline)
-/

open Real

/-! ## Register codec (encoding_utils.py)

`encode_sign_magnitude` / `decode_sign_magnitude`, translated directly:
Python ints become `ℤ` on the signed side and `ℕ` on the unsigned wire side;
`1 << sign_bit` becomes `1 <<< sign_bit`, `&`/`|` become `&&&`/`|||`. -/

def encode_sign_magnitude (value : ℤ) (sign_bit : ℕ) : ℕ :=
  if value < 0 then
    value.natAbs ||| (1 <<< sign_bit)
  else
    value.toNat

def decode_sign_magnitude (value : ℕ) (sign_bit : ℕ) : ℤ :=
  let sign_mask := 1 <<< sign_bit
  let magnitude_mask := sign_mask - 1
  let magnitude := value &&& magnitude_mask
  if value &&& sign_mask ≠ 0 then -(magnitude : ℤ) else (magnitude : ℤ)

theorem one_shiftLeft_eq_pow (b : ℕ) : 1 <<< b = 2 ^ b := by
  simp [Nat.shiftLeft_eq]

theorem and_two_pow_sub_one_of_lt {m b : ℕ} (hm : m < 2 ^ b) :
    m &&& (2 ^ b - 1) = m := by
  apply Nat.eq_of_testBit_eq
  intro i
  rcases lt_or_le i b with hib | hib
  · simp [Nat.testBit_and, Nat.testBit_two_pow_sub_one, hib]
  · have h2 : m < 2 ^ i := lt_of_lt_of_le hm (Nat.pow_le_pow_right (by norm_num) hib)
    simp [Nat.testBit_and, Nat.testBit_lt_two_pow h2]

theorem or_two_pow_and_two_pow_sub_one {m b : ℕ} (hm : m < 2 ^ b) :
    (m ||| 2 ^ b) &&& (2 ^ b - 1) = m := by
  apply Nat.eq_of_testBit_eq
  intro i
  rcases lt_or_le i b with hib | hib
  · have : Nat.testBit (2 ^ b) i = false := Nat.testBit_two_pow_of_ne (Nat.ne_of_gt hib)
    simp [Nat.testBit_and, Nat.testBit_or, Nat.testBit_two_pow_sub_one, hib, this]
  · have h2 : m < 2 ^ i := lt_of_lt_of_le hm (Nat.pow_le_pow_right (by norm_num) hib)
    simp [Nat.testBit_and, Nat.testBit_two_pow_sub_one, Nat.lt_irrefl,
      Nat.not_lt.mpr hib, Nat.testBit_lt_two_pow h2]

theorem or_two_pow_and_two_pow_ne_zero (m b : ℕ) :
    (m ||| 2 ^ b) &&& 2 ^ b ≠ 0 := by
  intro h
  have := congrArg (fun n => Nat.testBit n b) h
  simp [Nat.testBit_and, Nat.testBit_or, Nat.testBit_two_pow_self] at this

theorem and_two_pow_of_lt {m b : ℕ} (hm : m < 2 ^ b) : m &&& 2 ^ b = 0 := by
  apply Nat.eq_of_testBit_eq
  intro i
  rcases eq_or_ne i b with rfl | hib
  · simp [Nat.testBit_and, Nat.testBit_lt_two_pow hm]
  · simp [Nat.testBit_and, Nat.testBit_two_pow_of_ne (Ne.symm hib)]

/-- C1. Codec round-trip: for every integer `v` with `|v| < 2^sign_bit` and
every sign-bit position `b`, decoding the sign-magnitude encoding of `v` at
sign bit `b` returns `v`. -/
theorem codec_roundtrip (v : ℤ) (b : ℕ) (h : |v| < 2 ^ b) :
    decode_sign_magnitude (encode_sign_magnitude v b) b = v := by
  have hm : v.natAbs < 2 ^ b := by
    have : (v.natAbs : ℤ) < (2 : ℤ) ^ b := by
      rw [← Int.abs_eq_natAbs]; exact_mod_cast h
    exact_mod_cast this
  unfold encode_sign_magnitude decode_sign_magnitude
  rcases lt_or_le v 0 with hv | hv
  · simp only [hv, if_true, one_shiftLeft_eq_pow]
    rw [if_pos (or_two_pow_and_two_pow_ne_zero _ _),
      or_two_pow_and_two_pow_sub_one hm]
    omega
  · simp only [not_lt.mpr hv, if_false, one_shiftLeft_eq_pow]
    have hmt : v.toNat < 2 ^ b := by omega
    rw [if_neg (by simpa using and_two_pow_of_lt hmt),
      and_two_pow_sub_one_of_lt hmt]
    omega

/-- Witness for C1 at `v = -100`, `b = 15` (the docstring example:
encode gives 0x8064 = 32868, decode returns -100). -/
theorem codec_roundtrip_witness :
    |(-100 : ℤ)| < 2 ^ 15 ∧ decode_sign_magnitude (encode_sign_magnitude (-100) 15) 15 = -100 :=
  ⟨by decide, codec_roundtrip (-100) 15 (by decide)⟩

/-! ## Safety clamp (lekiwi.py, send_action lines 371-381)

For each arm goal `g` with present position `p` and configured limit `m`:
`if abs(g - p) > m: g := p + sign(g - p) * m`.  Positions are Python
floats, modelled as `ℝ`; `np.sign` is `Real.sign` (both return -1/0/1). -/

noncomputable def clampGoal (m g p : ℝ) : ℝ :=
  if |g - p| > m then p + Real.sign (g - p) * m else g

/-- The `max_relative_target` configuration: absent, a global scalar, or a
per-actuator mapping (absent actuators default to `float("inf")` in the code,
whose clamp test `abs(delta) > inf` is always false — modelled as no entry). -/
inductive MaxRelCfg where
  | noLimit : MaxRelCfg
  | scalar (m : ℝ) : MaxRelCfg
  | perMotor (l : List (String × ℝ)) : MaxRelCfg

def lookupKey (l : List (String × ℝ)) (k : String) : Option ℝ :=
  (l.find? (fun p => p.1 == k)).map (fun p => p.2)

noncomputable def clampWith (cfg : MaxRelCfg) (name : String) (g p : ℝ) : ℝ :=
  match cfg with
  | .noLimit => g
  | .scalar m => clampGoal m g p
  | .perMotor l =>
    match lookupKey l name with
    | some m => clampGoal m g p
    | none => g

/-- C2. Safety clamp: for every nonnegative configured limit `m`, the clamped
goal's delta from present position has absolute value at most `m` and sign
equal to the original delta's sign (or the delta is zero); goals already
within the limit are unchanged; and an actuator absent from a per-actuator
limit mapping (default infinity) is never clamped. -/
theorem safety_clamp (m g p : ℝ) (hm : 0 ≤ m) :
    |clampGoal m g p - p| ≤ m ∧
    (clampGoal m g p - p = 0 ∨ Real.sign (clampGoal m g p - p) = Real.sign (g - p)) ∧
    (|g - p| ≤ m → clampGoal m g p = g) ∧
    (∀ l name, lookupKey l name = none → clampWith (.perMotor l) name g p = g) := by
  unfold clampGoal
  rcases le_or_lt (|g - p|) m with hin | hout
  · rw [if_neg (not_lt.mpr hin)]
    refine ⟨hin, Or.inr rfl, fun _ => rfl, ?_⟩
    intro l name hl
    simp [clampWith, hl]
  · rw [if_pos hout]
    have hd : g - p ≠ 0 := by
      intro h0
      rw [h0] at hout
      simp at hout
      exact absurd hout (not_lt.mpr hm)
    have habs : |p + Real.sign (g - p) * m - p| = m := by
      rcases lt_or_gt_of_ne hd with hneg | hpos
      · rw [Real.sign_of_neg hneg]
        simp [abs_of_nonneg hm]
      · rw [Real.sign_of_pos hpos]
        simp [abs_of_nonneg hm]
    refine ⟨le_of_eq habs, ?_, fun hin => absurd hout (not_lt.mpr hin), ?_⟩
    · rcases eq_or_lt_of_le hm with hm0 | hmpos
      · left
        rcases lt_or_gt_of_ne hd with hneg | hpos

        · rw [Real.sign_of_neg hneg, ← hm0]; ring
        · rw [Real.sign_of_pos hpos, ← hm0]; ring
      · right
        rcases lt_or_gt_of_ne hd with hneg | hpos
        · rw [Real.sign_of_neg hneg]
          have : p + -1 * m - p = -m := by ring
          rw [this, Real.sign_of_neg (by linarith)]
        · rw [Real.sign_of_pos hpos]
          have : p + 1 * m - p = m := by ring
          rw [this, Real.sign_of_pos hmpos]
    · intro l name hl
      simp [clampWith, hl]

/-- Witness for C2 at `m = 10`, `g = 100`, `p = 50` (the clamp fires:
result is 60, delta 10, same direction). -/
theorem safety_clamp_witness :
    (0 : ℝ) ≤ 10 ∧
    (|clampGoal 10 100 50 - 50| ≤ 10 ∧
     (clampGoal 10 100 50 - 50 = 0 ∨
       Real.sign (clampGoal 10 100 50 - 50) = Real.sign (100 - 50)) ∧
     (|(100 : ℝ) - 50| ≤ 10 → clampGoal 10 100 50 = 100) ∧
     (∀ l name, lookupKey l name = none → clampWith (.perMotor l) name 100 50 = 100)) :=
  ⟨by norm_num, safety_clamp 10 100 50 (by norm_num)⟩

/-! ## String helpers

Python's `str.startswith` / `str.endswith` / substring `in` / `str.replace`,
implemented structurally over the character list of a `String`. -/

def strStartsWith (s pre : String) : Bool := pre.data.isPrefixOf s.data

def strEndsWith (s post : String) : Bool := post.data.isSuffixOf s.data

def containsSub (needle hay : String) : Bool :=
  hay.data.tails.any (fun t => needle.data.isPrefixOf t)

/-- Python `s.replace(needle, "")` for a nonempty needle: remove each
non-overlapping occurrence scanning left to right.  Structural recursion on
a fuel argument that starts at the list length (each step consumes at least
one character, so the fuel never runs out). -/
def removeAllF (needle : List Char) : ℕ → List Char → List Char
  | _, [] => []
  | 0, l => l
  | fuel + 1, c :: rest =>
    if needle.isPrefixOf (c :: rest) && !needle.isEmpty then
      removeAllF needle fuel (rest.drop (needle.length - 1))
    else
      c :: removeAllF needle fuel rest

def removeAll (needle l : List Char) : List Char := removeAllF needle l.length l

def stripKey (needle : String) (s : String) : String :=
  String.mk (removeAll needle.data s.data)

/-! ## Robot motor table (lekiwi.py, constructor lines 37-53)

The nine bus motors with their ids, and the startswith-based partition into
arm and base motors. -/

def busMotors : List (String × ℕ) :=
  [("arm_shoulder_pan", 1), ("arm_shoulder_lift", 2), ("arm_elbow_flex", 3),
   ("arm_wrist_flex", 4), ("arm_wrist_roll", 5), ("arm_gripper", 6),
   ("base_left_wheel", 7), ("base_back_wheel", 8), ("base_right_wheel", 9)]

def armMotors : List String :=
  (busMotors.filter (fun p => strStartsWith p.1 "arm")).map (fun p => p.1)

def baseMotors : List String :=
  (busMotors.filter (fun p => strStartsWith p.1 "base")).map (fun p => p.1)

def motorId (name : String) : ℕ :=
  ((busMotors.find? (fun p => p.1 == name)).map (fun p => p.2)).getD 0

/-! ## Connection state (lekiwi.py, is_connected lines 100-103) -/

def robot_is_connected (busConnected : Bool) (cams : List Bool) : Bool :=
  busConnected && cams.all (fun c => c)

/-- C6. Connected-state composition: `is_connected` is true iff the bus
reports connected and every configured camera reports connected; in
particular with two cameras of which one is down, it is false even when the
bus is up. -/
theorem connected_state_composition (bus : Bool) (cams : List Bool) :
    (robot_is_connected bus cams = true ↔ bus = true ∧ ∀ c ∈ cams, c = true) ∧
    robot_is_connected true [true, false] = false := by
  refine ⟨?_, rfl⟩
  simp [robot_is_connected, List.all_eq_true]

/-- Witness for C6: applying the composition rule at a fully connected
2-camera state yields `is_connected = true`. -/
theorem connected_state_composition_witness :
    robot_is_connected true [true, true] = true :=
  (connected_state_composition true [true, true]).1.mpr ⟨rfl, by decide⟩

/-! ## Error kinds and bus write commands -/

inductive RobotError where
  | notConnected : RobotError
  | keyError (key : String) : RobotError
deriving DecidableEq

structure SyncWriteCmd where
  register : String
  values : List (String × ℤ)
  numRetry : ℕ
deriving DecidableEq

/-! ## stop_base (lekiwi.py, lines 390-393)

`stop_base` performs `bus.sync_write("Goal_Velocity", dict.fromkeys(base_motors, 0),
num_retry=5)` with no connectivity check: the connection state is taken as an
input and ignored, and the result is never a `notConnected` error. -/

def stop_base (connected : Bool) : Except RobotError SyncWriteCmd :=
  let _ := connected
  Except.ok ⟨"Goal_Velocity", baseMotors.map (fun m => (m, 0)), 5⟩

/-- C8. stop_base: in every state (connected or not), stop_base issues one
zero-velocity sync write covering all three base actuators with retry count
5, and never raises NotConnected. -/
theorem stop_base_always_writes (connected : Bool) :
    stop_base connected =
      Except.ok ⟨"Goal_Velocity",
        [("base_left_wheel", 0), ("base_back_wheel", 0), ("base_right_wheel", 0)], 5⟩ := by
  rfl

/-! ## Calibration finalization (lekiwi.py, calibrate lines 163-207)

The interactive procedure is modelled as a pure function of its recorded
inputs: the homing offsets returned by `set_half_turn_homings` for the arm
motors, and the recorded range extrema for the non-full-turn motors.  The
classification, dict updates, and record construction mirror the source:
- `homing_offsets.update(dict.fromkeys(base_motors, 0))`
- full-turn motors (name containing "wheel" or "wrist_roll") get bounds
  overwritten to [0, 4095]
- one `MotorCalibration` per bus motor with `drive_mode=0`. -/

structure MotorCalibration where
  id : ℕ
  drive_mode : ℤ
  homing_offset : ℤ
  range_min : ℤ
  range_max : ℤ
deriving DecidableEq

def calibMotors : List String := armMotors ++ baseMotors

def isFullTurn (name : String) : Bool :=
  ["wheel", "wrist_roll"].any (fun k => containsSub k name)

def fullTurnMotors : List String := calibMotors.filter (fun m => isFullTurn m)

def homingOffsets (armHomings : String → ℤ) (name : String) : ℤ :=
  if baseMotors.contains name then 0 else armHomings name

def rangeMinOf (recMin : String → ℤ) (name : String) : ℤ :=
  if fullTurnMotors.contains name then 0 else recMin name

def rangeMaxOf (recMax : String → ℤ) (name : String) : ℤ :=
  if fullTurnMotors.contains name then 4095 else recMax name

def calibrate (armHomings recMin recMax : String → ℤ) (name : String) :
    MotorCalibration :=
  { id := motorId name
    drive_mode := 0
    homing_offset := homingOffsets armHomings name
    range_min := rangeMinOf recMin name
    range_max := rangeMaxOf recMax name }

theorem contains_fullTurn_eq :
    ∀ name ∈ calibMotors, fullTurnMotors.contains name = isFullTurn name := by
  decide

theorem arm_not_base : ∀ name ∈ armMotors, baseMotors.contains name = false := by
  decide

theorem base_contains : ∀ name ∈ baseMotors, baseMotors.contains name = true := by
  decide

/-- C5. Calibration finalization: for any recorded data, every full-turn
actuator (name containing "wheel" or "wrist_roll") receives bounds
[0, 4095], every bounded actuator receives exactly its observed [min, max],
every record has drive sign 0, arm actuators keep the homing offset captured
at the homing step, and base actuators receive homing offset 0. -/
theorem calibration_finalization (h rmin rmax : String → ℤ) (name : String)
    (hmem : name ∈ calibMotors) :
    (isFullTurn name = true →
      (calibrate h rmin rmax name).range_min = 0 ∧
      (calibrate h rmin rmax name).range_max = 4095) ∧
    (isFullTurn name = false →
      (calibrate h rmin rmax name).range_min = rmin name ∧
      (calibrate h rmin rmax name).range_max = rmax name) ∧
    (calibrate h rmin rmax name).drive_mode = 0 ∧
    (name ∈ baseMotors → (calibrate h rmin rmax name).homing_offset = 0) ∧
    (name ∈ armMotors → (calibrate h rmin rmax name).homing_offset = h name) := by
  have hft := contains_fullTurn_eq name hmem
  refine ⟨fun hf => ⟨?_, ?_⟩, fun hf => ⟨?_, ?_⟩, rfl, fun hb => ?_, fun ha => ?_⟩
  · show rangeMinOf rmin name = 0
    unfold rangeMinOf
    rw [hft, hf]
    simp
  · show rangeMaxOf rmax name = 4095
    unfold rangeMaxOf
    rw [hft, hf]
    simp
  · show rangeMinOf rmin name = rmin name
    unfold rangeMinOf
    rw [hft, hf]
    simp
  · show rangeMaxOf rmax name = rmax name
    unfold rangeMaxOf
    rw [hft, hf]
    simp
  · show homingOffsets h name = 0
    unfold homingOffsets
    rw [base_contains name hb]
    simp
  · show homingOffsets h name = h name
    unfold homingOffsets
    rw [arm_not_base name ha]
    simp

/-- Witness for C5 at the full-turn base actuator "base_left_wheel" with
all-zero recorded data: bounds [0, 4095], drive sign 0, homing offset 0. -/
theorem calibration_finalization_witness :
    "base_left_wheel" ∈ calibMotors ∧
    ((calibrate (fun _ => 7) (fun _ => 11) (fun _ => 13) "base_left_wheel").range_min = 0 ∧
     (calibrate (fun _ => 7) (fun _ => 11) (fun _ => 13) "base_left_wheel").range_max = 4095) ∧
    (calibrate (fun _ => 7) (fun _ => 11) (fun _ => 13) "base_left_wheel").drive_mode = 0 ∧
    (calibrate (fun _ => 7) (fun _ => 11) (fun _ => 13) "base_left_wheel").homing_offset = 0 := by
  have hmem : "base_left_wheel" ∈ calibMotors := by decide
  have := calibration_finalization (fun _ => 7) (fun _ => 11) (fun _ => 13)
    "base_left_wheel" hmem
  exact ⟨hmem, this.1 (by decide), this.2.2.1, this.2.2.2.1 (by decide)⟩

/-! ## Kinematics (lekiwi.py, lines 209-315)

Python floats are modelled as `ℝ`.  The builtin `round` used by
`_degps_to_raw` is round-half-to-even (`pyRound`); Mathlib's `round` is
round-half-up, so the half case is adjusted to the nearest even integer. -/

noncomputable def pyRound (x : ℝ) : ℤ :=
  if Int.fract x = 1 / 2 then 2 * round (x / 2) else round x

noncomputable def steps_per_deg : ℝ := 4096.0 / 360.0

/-- `_degps_to_raw`: scale, round to int, saturate to signed 16-bit. -/
noncomputable def degps_to_raw (degps : ℝ) : ℤ :=
  let speed_int := pyRound (degps * steps_per_deg)
  if speed_int > 0x7FFF then 0x7FFF
  else if speed_int < -0x8000 then -0x8000
  else speed_int

/-- `_raw_to_degps`. -/
noncomputable def raw_to_degps (raw_speed : ℤ) : ℝ := (raw_speed : ℝ) / steps_per_deg

/-- Wheel mounting angles `np.radians(np.array([240, 0, 120]) - 90)`. -/
noncomputable def wheelAngle (i : Fin 3) : ℝ :=
  ((![240, 0, 120] : Fin 3 → ℝ) i - 90) * (Real.pi / 180)

/-- The mapping matrix `m = [[cos(a), sin(a), base_radius] for a in angles]`. -/
noncomputable def mMat (base_radius : ℝ) : Matrix (Fin 3) (Fin 3) ℝ :=
  Matrix.of fun i => ![Real.cos (wheelAngle i), Real.sin (wheelAngle i), base_radius]

/-- `wheel_linear_speeds = m.dot([x, y, theta_rad])`. -/
noncomputable def wheelLinearSpeeds (x y theta base_radius : ℝ) : Fin 3 → ℝ :=
  (mMat base_radius).mulVec ![x, y, theta * (Real.pi / 180)]

/-- `wheel_degps = wheel_linear_speeds / wheel_radius * (180 / pi)`. -/
noncomputable def wheelDegps (x y theta wheel_radius base_radius : ℝ) (i : Fin 3) : ℝ :=
  wheelLinearSpeeds x y theta base_radius i / wheel_radius * (180 / Real.pi)

/-- `raw_floats = [abs(degps) * steps_per_deg for degps in wheel_degps]`. -/
noncomputable def rawFloat (w : Fin 3 → ℝ) (i : Fin 3) : ℝ := |w i| * steps_per_deg

/-- `max_raw_computed = max(raw_floats)`. -/
noncomputable def maxRawComputed (w : Fin 3 → ℝ) : ℝ :=
  max (rawFloat w 0) (max (rawFloat w 1) (rawFloat w 2))

/-- The saturation step: `if max_raw_computed > max_raw: wheel_degps *= scale`. -/
noncomputable def scaledWheelDegps (x y theta wheel_radius base_radius max_raw : ℝ)
    (i : Fin 3) : ℝ :=
  let w := wheelDegps x y theta wheel_radius base_radius
  if maxRawComputed w > max_raw then w i * (max_raw / maxRawComputed w) else w i

/-- `_body_to_wheel_raw`, index 0/1/2 = left/back/right wheel. -/
noncomputable def body_to_wheel_raw (x y theta wheel_radius base_radius max_raw : ℝ)
    (i : Fin 3) : ℤ :=
  degps_to_raw (scaledWheelDegps x y theta wheel_radius base_radius max_raw i)

/-- The `velocity_vector` of `_wheel_raw_to_body`: decode each raw reading
to deg/s, convert to rad/s, multiply by the wheel radius to get linear
speeds, and apply the inverse of the fixed mapping matrix
(`np.linalg.inv(m)`). -/
noncomputable def invVelocity (left back right : ℤ)
    (wheel_radius base_radius : ℝ) : Fin 3 → ℝ :=
  (mMat base_radius)⁻¹.mulVec
    (fun i => (![raw_to_degps left, raw_to_degps back, raw_to_degps right] : Fin 3 → ℝ) i
      * (Real.pi / 180) * wheel_radius)

/-- `_wheel_raw_to_body`: the velocity vector as `(x, y, theta_deg)`, the
angular component converted back to degrees/second. -/
noncomputable def wheel_raw_to_body (left back right : ℤ)
    (wheel_radius base_radius : ℝ) : ℝ × ℝ × ℝ :=
  (invVelocity left back right wheel_radius base_radius 0,
   invVelocity left back right wheel_radius base_radius 1,
   invVelocity left back right wheel_radius base_radius 2 * (180 / Real.pi))

/-! ### Trigonometric evaluation of the three mounting angles -/

theorem wheelAngle_zero : wheelAngle 0 = Real.pi - Real.pi / 6 := by
  simp [wheelAngle]
  ring

theorem wheelAngle_one : wheelAngle 1 = -(Real.pi / 2) := by
  simp [wheelAngle]
  ring

theorem wheelAngle_two : wheelAngle 2 = Real.pi / 6 := by
  simp [wheelAngle]
  ring

theorem cos_wheelAngle_zero : Real.cos (wheelAngle 0) = -(Real.sqrt 3 / 2) := by
  rw [wheelAngle_zero, Real.cos_pi_sub, Real.cos_pi_div_six]

theorem sin_wheelAngle_zero : Real.sin (wheelAngle 0) = 1 / 2 := by
  rw [wheelAngle_zero, Real.sin_pi_sub, Real.sin_pi_div_six]

theorem cos_wheelAngle_one : Real.cos (wheelAngle 1) = 0 := by
  rw [wheelAngle_one, Real.cos_neg, Real.cos_pi_div_two]

theorem sin_wheelAngle_one : Real.sin (wheelAngle 1) = -1 := by
  rw [wheelAngle_one, Real.sin_neg, Real.sin_pi_div_two]

theorem cos_wheelAngle_two : Real.cos (wheelAngle 2) = Real.sqrt 3 / 2 := by
  rw [wheelAngle_two, Real.cos_pi_div_six]

theorem sin_wheelAngle_two : Real.sin (wheelAngle 2) = 1 / 2 := by
  rw [wheelAngle_two, Real.sin_pi_div_six]

/-! ### The mapping matrix, its explicit inverse, and `mulVec` expansions -/

theorem mMat_mulVec (br : ℝ) (v : Fin 3 → ℝ) (i : Fin 3) :
    (mMat br).mulVec v i =
      Real.cos (wheelAngle i) * v 0 + Real.sin (wheelAngle i) * v 1 + br * v 2 := by
  simp [mMat, Matrix.mulVec, Matrix.dotProduct, Fin.sum_univ_three,
    Matrix.vecHead, Matrix.vecTail]

/-- The explicit inverse of the mapping matrix, verified below. -/
noncomputable def mInvE (br : ℝ) : Matrix (Fin 3) (Fin 3) ℝ :=
  Matrix.of
    ![![-(1 / Real.sqrt 3), 0, 1 / Real.sqrt 3],
      ![1 / 3, -(2 / 3), 1 / 3],
      ![1 / (3 * br), 1 / (3 * br), 1 / (3 * br)]]

theorem sqrt_three_pos : (0 : ℝ) < Real.sqrt 3 := Real.sqrt_pos.mpr (by norm_num)

theorem sq_sqrt_three : Real.sqrt 3 * Real.sqrt 3 = 3 :=
  Real.mul_self_sqrt (by norm_num)

theorem mMat_mul_mInvE (br : ℝ) (hbr : br ≠ 0) : mMat br * mInvE br = 1 := by
  have hs := sq_sqrt_three
  have hs0 : Real.sqrt 3 ≠ 0 := ne_of_gt sqrt_three_pos
  ext i j
  fin_cases i <;> fin_cases j <;>
    simp [mMat, mInvE, Matrix.mul_apply, Fin.sum_univ_three,
      cos_wheelAngle_zero, sin_wheelAngle_zero, cos_wheelAngle_one,
      sin_wheelAngle_one, cos_wheelAngle_two, sin_wheelAngle_two,
      Matrix.vecHead, Matrix.vecTail, Matrix.one_apply] <;>
    field_simp <;>
    nlinarith [hs, hs0]

theorem mMat_inv (br : ℝ) (hbr : br ≠ 0) : (mMat br)⁻¹ = mInvE br :=
  Matrix.inv_eq_right_inv (mMat_mul_mInvE br hbr)

theorem mInvE_mulVec (br : ℝ) (w : Fin 3 → ℝ) :
    (mInvE br).mulVec w 0 = -(1 / Real.sqrt 3) * w 0 + 1 / Real.sqrt 3 * w 2 ∧
    (mInvE br).mulVec w 1 = 1 / 3 * w 0 + -(2 / 3) * w 1 + 1 / 3 * w 2 ∧
    (mInvE br).mulVec w 2 = 1 / (3 * br) * (w 0 + w 1 + w 2) := by
  refine ⟨?_, ?_, ?_⟩ <;>
    simp [mInvE, Matrix.mulVec, Matrix.dotProduct, Fin.sum_univ_three,
      Matrix.vecHead, Matrix.vecTail] <;>
    ring

/-! ### Uniform saturation scaling -/

theorem maxRawComputed_mul_nonneg (w : Fin 3 → ℝ) {c : ℝ} (hc : 0 ≤ c) :
    maxRawComputed (fun i => w i * c) = maxRawComputed w * c := by
  have hf : ∀ i, rawFloat (fun i => w i * c) i = rawFloat w i * c := by
    intro i
    simp only [rawFloat, abs_mul, abs_of_nonneg hc]
    ring
  simp only [maxRawComputed, hf, max_mul_of_nonneg _ _ hc]

/-- C3. Uniform scaling invariant: whenever the largest wheel
raw-ticks-per-second magnitude exceeds the (nonnegative) cap, all three wheel
degrees/second values are multiplied by one common nonnegative factor, and
the largest magnitude of the scaled vector equals the cap. -/
theorem uniform_scaling (x y theta wr br max_raw : ℝ) (hcap : 0 ≤ max_raw)
    (hsat : maxRawComputed (wheelDegps x y theta wr br) > max_raw) :
    ∃ c : ℝ, 0 ≤ c ∧
      (∀ i, scaledWheelDegps x y theta wr br max_raw i =
        c * wheelDegps x y theta wr br i) ∧
      maxRawComputed (scaledWheelDegps x y theta wr br max_raw) = max_raw := by
  have hM0 : 0 < maxRawComputed (wheelDegps x y theta wr br) := lt_of_le_of_lt hcap hsat
  have hc : 0 ≤ max_raw / maxRawComputed (wheelDegps x y theta wr br) :=
    div_nonneg hcap hM0.le
  refine ⟨max_raw / maxRawComputed (wheelDegps x y theta wr br), hc, ?_, ?_⟩
  · intro i
    simp only [scaledWheelDegps]
    rw [if_pos hsat]
    ring
  · have hfun : scaledWheelDegps x y theta wr br max_raw = fun i =>
        wheelDegps x y theta wr br i *
          (max_raw / maxRawComputed (wheelDegps x y theta wr br)) := by
      funext i
      simp only [scaledWheelDegps]
      rw [if_pos hsat]
    rw [hfun, maxRawComputed_mul_nonneg _ hc,
      mul_div_cancel₀ _ (ne_of_gt hM0)]

/-- Pure-rotation helper: with the default radii, a body command
`(0, 0, theta)` yields the same wheel speed `2.5 * theta` deg/s on all
three wheels (the `pi` factors cancel). -/
theorem wheelDegps_spin (theta : ℝ) (i : Fin 3) :
    wheelDegps 0 0 theta 0.05 0.125 i = 2.5 * theta := by
  have hπ : Real.pi ≠ 0 := Real.pi_ne_zero
  simp only [wheelDegps, wheelLinearSpeeds, mMat_mulVec, Matrix.cons_val_zero,
    Matrix.cons_val_one, Matrix.head_cons, Matrix.cons_val_two, Matrix.vecTail,
    Matrix.vecHead, Function.comp]
  field_simp
  ring

/-- Witness for C3 at the spin command `(0, 0, 10000)` with the default
radii and cap 3000: every wheel wants 25000 deg/s ≈ 284444 ticks/s, far
over the cap, so the scaling branch fires. -/
theorem uniform_scaling_witness :
    ∃ c : ℝ, 0 ≤ c ∧
      (∀ i, scaledWheelDegps 0 0 10000 0.05 0.125 3000 i =
        c * wheelDegps 0 0 10000 0.05 0.125 i) ∧
      maxRawComputed (scaledWheelDegps 0 0 10000 0.05 0.125 3000) = 3000 := by
  have hsat : maxRawComputed (wheelDegps 0 0 10000 0.05 0.125) > 3000 := by
    have h1 : ∀ i, wheelDegps 0 0 10000 0.05 0.125 i = 25000 := by
      intro i
      rw [wheelDegps_spin]
      norm_num
    simp only [maxRawComputed, rawFloat, h1, steps_per_deg]
    norm_num
  exact uniform_scaling 0 0 10000 0.05 0.125 3000 (by norm_num) hsat

/-! ### Concrete forward-kinematics scenario (spec §8) -/

theorem sqrt3_lt : Real.sqrt 3 < 1.7321 :=
  (Real.sqrt_lt' (by norm_num)).mpr (by norm_num)

theorem sqrt3_gt : (1.7320 : ℝ) < Real.sqrt 3 :=
  (Real.lt_sqrt (by norm_num)).mpr (by norm_num)

theorem wheelLinear_scenario_zero :
    wheelLinearSpeeds 0.1 0 0 0.125 0 = -(Real.sqrt 3 / 20) := by
  simp only [wheelLinearSpeeds, mMat_mulVec, cos_wheelAngle_zero,
    sin_wheelAngle_zero, Matrix.cons_val_zero, Matrix.cons_val_one,
    Matrix.head_cons, Matrix.cons_val_two, Matrix.vecTail, Matrix.vecHead,
    Function.comp, Fin.succ_zero_eq_one, Fin.succ_one_eq_two]
  ring

theorem wheelLinear_scenario_one :
    wheelLinearSpeeds 0.1 0 0 0.125 1 = 0 := by
  simp only [wheelLinearSpeeds, mMat_mulVec, cos_wheelAngle_one,
    sin_wheelAngle_one, Matrix.cons_val_zero, Matrix.cons_val_one,
    Matrix.head_cons, Matrix.cons_val_two, Matrix.vecTail, Matrix.vecHead,
    Function.comp, Fin.succ_zero_eq_one, Fin.succ_one_eq_two]
  ring

theorem wheelLinear_scenario_two :
    wheelLinearSpeeds 0.1 0 0 0.125 2 = Real.sqrt 3 / 20 := by
  simp only [wheelLinearSpeeds, mMat_mulVec, cos_wheelAngle_two,
    sin_wheelAngle_two, Matrix.cons_val_zero, Matrix.cons_val_one,
    Matrix.head_cons, Matrix.cons_val_two, Matrix.vecTail, Matrix.vecHead,
    Function.comp, Fin.succ_zero_eq_one, Fin.succ_one_eq_two]
  ring

theorem wheelDegps_scenario_zero :
    wheelDegps 0.1 0 0 0.05 0.125 0 = -(180 * Real.sqrt 3 / Real.pi) := by
  rw [wheelDegps, wheelLinear_scenario_zero]
  have hπ : Real.pi ≠ 0 := Real.pi_ne_zero
  field_simp
  ring

theorem wheelDegps_scenario_one :
    wheelDegps 0.1 0 0 0.05 0.125 1 = 0 := by
  rw [wheelDegps, wheelLinear_scenario_one]
  ring

theorem wheelDegps_scenario_two :
    wheelDegps 0.1 0 0 0.05 0.125 2 = 180 * Real.sqrt 3 / Real.pi := by
  rw [wheelDegps, wheelLinear_scenario_two]
  have hπ : Real.pi ≠ 0 := Real.pi_ne_zero
  field_simp
  ring

/-- C9. Concrete forward-kinematics scenario at x = 0.1 m/s, y = 0,
theta = 0, r = 0.05, b = 0.125, cap = 3000: the mapping rows use the angles
150°, −90°, 30° (in radians); wheel_linear ≈ [−0.0866, 0, 0.0866] m/s
(within 1e-4); wheel_degps ≈ [−99.3, 0, 99.3] deg/s (within 0.1);
raw ticks/s ≈ [−1130, 0, 1130] (within 1); and no saturation is triggered
(max magnitude ≤ 3000, scaling leaves the wheel speeds unchanged). -/
theorem forward_scenario :
    (wheelAngle 0 = 150 * (Real.pi / 180) ∧ wheelAngle 1 = -90 * (Real.pi / 180) ∧
      wheelAngle 2 = 30 * (Real.pi / 180)) ∧
    (|wheelLinearSpeeds 0.1 0 0 0.125 0 - (-0.0866)| ≤ 0.0001 ∧
      wheelLinearSpeeds 0.1 0 0 0.125 1 = 0 ∧
      |wheelLinearSpeeds 0.1 0 0 0.125 2 - 0.0866| ≤ 0.0001) ∧
    (|wheelDegps 0.1 0 0 0.05 0.125 0 - (-99.3)| ≤ 0.1 ∧
      wheelDegps 0.1 0 0 0.05 0.125 1 = 0 ∧
      |wheelDegps 0.1 0 0 0.05 0.125 2 - 99.3| ≤ 0.1) ∧
    (|wheelDegps 0.1 0 0 0.05 0.125 0 * steps_per_deg - (-1130)| ≤ 1 ∧
      wheelDegps 0.1 0 0 0.05 0.125 1 * steps_per_deg = 0 ∧
      |wheelDegps 0.1 0 0 0.05 0.125 2 * steps_per_deg - 1130| ≤ 1) ∧
    maxRawComputed (wheelDegps 0.1 0 0 0.05 0.125) ≤ 3000 ∧
    (∀ i, scaledWheelDegps 0.1 0 0 0.05 0.125 3000 i =
      wheelDegps 0.1 0 0 0.05 0.125 i) := by
  have hπ : (0 : ℝ) < Real.pi := Real.pi_pos
  have hπl : (3.141592 : ℝ) < Real.pi := Real.pi_gt_d6
  have hπu : Real.pi < 3.141593 := Real.pi_lt_d6
  have hsl := sqrt3_gt
  have hsu := sqrt3_lt
  have hdeg_hi : 180 * Real.sqrt 3 / Real.pi ≤ 99.4 := by
    rw [div_le_iff hπ]
    nlinarith
  have hdeg_lo : (99.2 : ℝ) ≤ 180 * Real.sqrt 3 / Real.pi := by
    rw [le_div_iff hπ]
    nlinarith
  have hraw_eq : ∀ s : ℝ, 180 * s / Real.pi * steps_per_deg = 2048 * s / Real.pi := by
    intro s
    simp only [steps_per_deg]
    have hπ0 : Real.pi ≠ 0 := Real.pi_ne_zero
    field_simp
    ring
  have hraw_hi : 2048 * Real.sqrt 3 / Real.pi ≤ 1131 := by
    rw [div_le_iff hπ]
    nlinarith
  have hraw_lo : (1129 : ℝ) ≤ 2048 * Real.sqrt 3 / Real.pi := by
    rw [le_div_iff hπ]
    nlinarith
  have hraw_cap : 2048 * Real.sqrt 3 / Real.pi ≤ 3000 := by
    rw [div_le_iff hπ]
    nlinarith
  have hrf0 : rawFloat (wheelDegps 0.1 0 0 0.05 0.125) 0 = 2048 * Real.sqrt 3 / Real.pi := by
    rw [rawFloat, wheelDegps_scenario_zero, abs_neg,
      abs_of_nonneg (by positivity), hraw_eq]
  have hrf1 : rawFloat (wheelDegps 0.1 0 0 0.05 0.125) 1 = 0 := by
    rw [rawFloat, wheelDegps_scenario_one]
    simp
  have hrf2 : rawFloat (wheelDegps 0.1 0 0 0.05 0.125) 2 = 2048 * Real.sqrt 3 / Real.pi := by
    rw [rawFloat, wheelDegps_scenario_two,
      abs_of_nonneg (by positivity), hraw_eq]
  have hmax : maxRawComputed (wheelDegps 0.1 0 0 0.05 0.125) =
      2048 * Real.sqrt 3 / Real.pi := by
    have hm1 : max (0 : ℝ) (2048 * Real.sqrt 3 / Real.pi) =
        2048 * Real.sqrt 3 / Real.pi := max_eq_right (by positivity)
    rw [maxRawComputed, hrf0, hrf1, hrf2, hm1, max_self]
  refine ⟨⟨?_, ?_, ?_⟩, ⟨?_, wheelLinear_scenario_one, ?_⟩,
    ⟨?_, wheelDegps_scenario_one, ?_⟩, ⟨?_, ?_, ?_⟩, ?_, ?_⟩
  · norm_num [wheelAngle]
  · norm_num [wheelAngle]
  · norm_num [wheelAngle]
  · rw [wheelLinear_scenario_zero, abs_le]
    constructor <;> nlinarith
  · rw [wheelLinear_scenario_two, abs_le]
    constructor <;> nlinarith
  · rw [wheelDegps_scenario_zero, abs_le]
    constructor <;> linarith
  · rw [wheelDegps_scenario_two, abs_le]
    constructor <;> linarith
  · rw [wheelDegps_scenario_zero]
    have : -(180 * Real.sqrt 3 / Real.pi) * steps_per_deg =
        -(2048 * Real.sqrt 3 / Real.pi) := by
      rw [← hraw_eq]
      ring
    rw [this, abs_le]
    constructor <;> linarith
  · rw [wheelDegps_scenario_one]
    ring
  · rw [wheelDegps_scenario_two, hraw_eq, abs_le]
    constructor <;> linarith
  · rw [hmax]
    exact hraw_cap
  · intro i
    simp only [scaledWheelDegps]
    rw [if_neg]
    rw [hmax]
    push_neg
    exact hraw_cap

/-! ### Rounding error bounds and the unsaturated fast path -/

theorem pyRound_abs_err (x : ℝ) : |(pyRound x : ℝ) - x| ≤ 1 / 2 := by
  unfold pyRound
  rcases eq_or_ne (Int.fract x) (1 / 2) with hf | hf
  · rw [if_pos hf]
    have hx : x = (⌊x⌋ : ℝ) + 1 / 2 := by
      have h1 : Int.fract x = x - ⌊x⌋ := rfl
      rw [h1] at hf
      linarith
    rcases Int.even_or_odd ⌊x⌋ with ⟨m, hm⟩ | ⟨m, hm⟩
    · have hx2 : x / 2 = (m : ℝ) + 1 / 4 := by
        rw [hx, hm]
        push_cast
        ring
      have hr : round (x / 2) = m := by
        rw [hx2, round_eq, show (m : ℝ) + 1 / 4 + 1 / 2 = (m : ℝ) + 3 / 4 by ring,
          Int.floor_int_add]
        norm_num
      have hv : ((2 * round (x / 2) : ℤ) : ℝ) - x = -(1 / 2) := by
        rw [hr, hx, hm]
        push_cast
        ring
      rw [hv, abs_neg, abs_of_nonneg (by norm_num : (0 : ℝ) ≤ 1 / 2)]
    · have hx2 : x / 2 = (m : ℝ) + 3 / 4 := by
        rw [hx, hm]
        push_cast
        ring
      have hr : round (x / 2) = m + 1 := by
        rw [hx2, round_eq, show (m : ℝ) + 3 / 4 + 1 / 2 = (m : ℝ) + 5 / 4 by ring,
          Int.floor_int_add]
        norm_num
      have hv : ((2 * round (x / 2) : ℤ) : ℝ) - x = 1 / 2 := by
        rw [hr, hx, hm]
        push_cast
        ring
      rw [hv, abs_of_nonneg (by norm_num : (0 : ℝ) ≤ 1 / 2)]
  · rw [if_neg hf, abs_sub_comm]
    exact abs_sub_round x

theorem steps_per_deg_eq : steps_per_deg = 512 / 45 := by
  norm_num [steps_per_deg]

theorem steps_per_deg_pos : 0 < steps_per_deg := by
  rw [steps_per_deg_eq]
  norm_num

/-- Under the signed 16-bit clamp threshold, `_degps_to_raw` is exactly the
rounding of `degps * steps_per_deg`. -/
theorem degps_to_raw_no_clamp {d : ℝ} (h : |d * steps_per_deg| ≤ 3000) :
    degps_to_raw d = pyRound (d * steps_per_deg) := by
  have he := pyRound_abs_err (d * steps_per_deg)
  rw [abs_le] at h he
  have hub : ((pyRound (d * steps_per_deg) : ℤ) : ℝ) ≤ 32767 := by linarith
  have hlb : (-32768 : ℝ) ≤ ((pyRound (d * steps_per_deg) : ℤ) : ℝ) := by linarith
  have hub' : pyRound (d * steps_per_deg) ≤ 32767 := by exact_mod_cast hub
  have hlb' : (-32768 : ℤ) ≤ pyRound (d * steps_per_deg) := by exact_mod_cast hlb
  simp only [degps_to_raw]
  rw [if_neg (by omega), if_neg (by omega)]

theorem rawFloat_le_max (w : Fin 3 → ℝ) (i : Fin 3) :
    rawFloat w i ≤ maxRawComputed w := by
  fin_cases i
  · exact le_max_left _ _
  · exact le_trans (le_max_left _ _) (le_max_right _ _)
  · exact le_trans (le_max_right _ _) (le_max_right _ _)

/-- When no wheel exceeds the cap, the saturation branch is not taken and
each raw command is the rounded unscaled wheel speed. -/
theorem body_raw_no_sat (x y theta : ℝ)
    (hsat : maxRawComputed (wheelDegps x y theta 0.05 0.125) ≤ 3000) (i : Fin 3) :
    body_to_wheel_raw x y theta 0.05 0.125 3000 i =
      pyRound (wheelDegps x y theta 0.05 0.125 i * steps_per_deg) := by
  have h1 : scaledWheelDegps x y theta 0.05 0.125 3000 i =
      wheelDegps x y theta 0.05 0.125 i := by
    simp only [scaledWheelDegps]
    rw [if_neg (not_lt.mpr hsat)]
  have h2 : |wheelDegps x y theta 0.05 0.125 i * steps_per_deg| ≤ 3000 := by
    rw [abs_mul, abs_of_pos steps_per_deg_pos]
    exact le_trans (rawFloat_le_max _ i) hsat
  rw [body_to_wheel_raw, h1, degps_to_raw_no_clamp h2]

/-! ### Kinematics round-trip: counterexample to the 1e-3 tolerance, and
the provable tolerances -/

theorem invVelocity_zero (wr br : ℝ) : ∀ j, invVelocity 0 0 0 wr br j = 0 := by
  intro j
  have harg : (fun i => (![raw_to_degps 0, raw_to_degps 0, raw_to_degps 0] : Fin 3 → ℝ) i
      * (Real.pi / 180) * wr) = (0 : Fin 3 → ℝ) := by
    funext i
    have hz : raw_to_degps 0 = 0 := by
      simp [raw_to_degps]
    fin_cases i <;> simp [hz]
  rw [invVelocity, harg, Matrix.mulVec_zero]
  rfl

theorem floor_64_225 : ⌊(64 / 225 : ℝ)⌋ = 0 := by
  rw [Int.floor_eq_iff] <;> norm_num

theorem floor_353_450 : ⌊(353 / 450 : ℝ)⌋ = 0 := by
  rw [Int.floor_eq_iff] <;> norm_num

theorem pyRound_64_225 : pyRound (64 / 225 : ℝ) = 0 := by
  have hfr : Int.fract ((64 : ℝ) / 225) = 64 / 225 := by
    have h1 : Int.fract ((64 : ℝ) / 225) = 64 / 225 - ⌊(64 / 225 : ℝ)⌋ := rfl
    rw [h1, floor_64_225]
    norm_num
  unfold pyRound
  rw [if_neg (by rw [hfr]; norm_num), round_eq,
    show (64 / 225 : ℝ) + 1 / 2 = 353 / 450 by norm_num, floor_353_450]

/-- C4 (counterexample). At the body velocity `(0, 0, 0.01)` — far below
the saturation cap — the forward transform rounds every wheel command to 0
raw ticks, so the inverse transform returns theta = 0 and the round-trip
error on theta is 0.01 > 1e-3: the claimed uniform 1e-3 tolerance fails. -/
theorem kinematics_roundtrip_counterexample :
    maxRawComputed (wheelDegps 0 0 0.01 0.05 0.125) ≤ 3000 ∧
    ¬ (|(wheel_raw_to_body (body_to_wheel_raw 0 0 0.01 0.05 0.125 3000 0)
          (body_to_wheel_raw 0 0 0.01 0.05 0.125 3000 1)
          (body_to_wheel_raw 0 0 0.01 0.05 0.125 3000 2) 0.05 0.125).2.2 - 0.01|
        ≤ 0.001) := by
  have hw : ∀ i, wheelDegps 0 0 0.01 0.05 0.125 i = 0.025 := by
    intro i
    rw [wheelDegps_spin]
    norm_num
  have hsat : maxRawComputed (wheelDegps 0 0 0.01 0.05 0.125) ≤ 3000 := by
    simp only [maxRawComputed, rawFloat, hw, steps_per_deg_eq, max_self]
    rw [abs_of_pos (by norm_num : (0 : ℝ) < 0.025)]
    norm_num
  have hraw : ∀ i, body_to_wheel_raw 0 0 0.01 0.05 0.125 3000 i = 0 := by
    intro i
    rw [body_raw_no_sat 0 0 0.01 hsat i, hw i, steps_per_deg_eq,
      show (0.025 : ℝ) * (512 / 45) = 64 / 225 by norm_num, pyRound_64_225]
  refine ⟨hsat, ?_⟩
  rw [wheel_raw_to_body, hraw 0, hraw 1, hraw 2]
  simp only [invVelocity_zero]
  norm_num
  rw [abs_of_nonneg (by norm_num : (0 : ℝ) ≤ 1 / 100)]
  norm_num

/-- C4 (amended). Kinematics round-trip with the default radii and cap: for
every body velocity whose wheel raw magnitudes stay within the saturation
cap, the inverse transform applied to the forward transform recovers x and y
within 1e-3 m/s and theta within 0.018 deg/s.  (The half-tick rounding of
each wheel can move theta by up to 0.5 * 360/4096 * r/b = 0.0176 deg/s, so
the spec's uniform 1e-3 does not hold for theta; see the counterexample.) -/
theorem kinematics_roundtrip_approx (x y theta : ℝ)
    (hsat : maxRawComputed (wheelDegps x y theta 0.05 0.125) ≤ 3000) :
    |(wheel_raw_to_body (body_to_wheel_raw x y theta 0.05 0.125 3000 0)
        (body_to_wheel_raw x y theta 0.05 0.125 3000 1)
        (body_to_wheel_raw x y theta 0.05 0.125 3000 2) 0.05 0.125).1 - x|
      ≤ 0.001 ∧
    |(wheel_raw_to_body (body_to_wheel_raw x y theta 0.05 0.125 3000 0)
        (body_to_wheel_raw x y theta 0.05 0.125 3000 1)
        (body_to_wheel_raw x y theta 0.05 0.125 3000 2) 0.05 0.125).2.1 - y|
      ≤ 0.001 ∧
    |(wheel_raw_to_body (body_to_wheel_raw x y theta 0.05 0.125 3000 0)
        (body_to_wheel_raw x y theta 0.05 0.125 3000 1)
        (body_to_wheel_raw x y theta 0.05 0.125 3000 2) 0.05 0.125).2.2 - theta|
      ≤ 0.018 := by
  have hπ0 : Real.pi ≠ 0 := Real.pi_ne_zero
  have hπpos : (0 : ℝ) < Real.pi := Real.pi_pos
  have hbr : (0.125 : ℝ) ≠ 0 := by norm_num
  set w : Fin 3 → ℝ := wheelDegps x y theta 0.05 0.125 with hw
  obtain ⟨ε, hε⟩ : ∃ ε : Fin 3 → ℝ, ε = fun i =>
      ((pyRound (w i * steps_per_deg) : ℤ) : ℝ) - w i * steps_per_deg := ⟨_, rfl⟩
  have hεb : ∀ i : Fin 3, -(1 / 2) ≤ ε i ∧ ε i ≤ 1 / 2 := by
    intro i
    have h := pyRound_abs_err (w i * steps_per_deg)
    rw [abs_le] at h
    constructor
    · simp only [hε]
      linarith [h.1]
    · simp only [hε]
      linarith [h.2]
  have key : ∀ j : Fin 3, ((pyRound (w j * steps_per_deg) : ℤ) : ℝ) / steps_per_deg
      * (Real.pi / 180) * 0.05
      = wheelLinearSpeeds x y theta 0.125 j + ε j * (Real.pi / 40960) := by
    intro j
    have hP : ((pyRound (w j * steps_per_deg) : ℤ) : ℝ)
        = w j * steps_per_deg + ε j := by
      simp only [hε]
      ring
    have hwj : w j = wheelLinearSpeeds x y theta 0.125 j / 0.05 * (180 / Real.pi) := by
      rw [hw]
      rfl
    rw [hP, hwj, steps_per_deg_eq]
    field_simp
    ring
  have harg : (fun i =>
      (![raw_to_degps (pyRound (w 0 * steps_per_deg)),
         raw_to_degps (pyRound (w 1 * steps_per_deg)),
         raw_to_degps (pyRound (w 2 * steps_per_deg))] : Fin 3 → ℝ) i
        * (Real.pi / 180) * 0.05)
      = wheelLinearSpeeds x y theta 0.125 + fun i => ε i * (Real.pi / 40960) := by
    funext i
    fin_cases i <;>
      · simp only [Matrix.cons_val_zero, Matrix.cons_val_one, Matrix.head_cons,
          Matrix.cons_val_two, Matrix.vecTail, Matrix.vecHead, Function.comp,
          Fin.succ_zero_eq_one, Fin.succ_one_eq_two, Pi.add_apply, raw_to_degps]
        exact key _
  have hexact : (mInvE 0.125).mulVec (wheelLinearSpeeds x y theta 0.125)
      = ![x, y, theta * (Real.pi / 180)] := by
    rw [show wheelLinearSpeeds x y theta 0.125
        = (mMat 0.125).mulVec ![x, y, theta * (Real.pi / 180)] from rfl,
      Matrix.mulVec_mulVec, Matrix.mul_eq_one_comm.mp (mMat_mul_mInvE 0.125 hbr),
      Matrix.one_mulVec]
  have hinv : ∀ j, invVelocity (pyRound (w 0 * steps_per_deg))
      (pyRound (w 1 * steps_per_deg)) (pyRound (w 2 * steps_per_deg)) 0.05 0.125 j
      = (![x, y, theta * (Real.pi / 180)] : Fin 3 → ℝ) j
        + (mInvE 0.125).mulVec (fun i => ε i * (Real.pi / 40960)) j := by
    intro j
    rw [invVelocity, mMat_inv 0.125 hbr, harg, Matrix.mulVec_add, hexact, Pi.add_apply]
  obtain ⟨hm0, hm1, hm2⟩ := mInvE_mulVec 0.125 (fun i => ε i * (Real.pi / 40960))
  have hsat' : maxRawComputed w ≤ 3000 := hsat
  have hraw : ∀ i, body_to_wheel_raw x y theta 0.05 0.125 3000 i
      = pyRound (w i * steps_per_deg) := by
    intro i
    rw [hw]
    exact body_raw_no_sat x y theta (by rw [← hw]; exact hsat') i
  rw [wheel_raw_to_body, hraw 0, hraw 1, hraw 2]
  refine ⟨?_, ?_, ?_⟩
  · simp only [hinv 0, hm0, Matrix.cons_val_zero]
    have h13 : (1 : ℝ) / Real.sqrt 3 = Real.sqrt 3 / 3 := by
      rw [div_eq_div_iff (ne_of_gt sqrt_three_pos) (by norm_num : (3 : ℝ) ≠ 0),
        sq_sqrt_three]
      norm_num
    have heq : x + (-(1 / Real.sqrt 3) * (ε 0 * (Real.pi / 40960))
        + 1 / Real.sqrt 3 * (ε 2 * (Real.pi / 40960))) - x
        = Real.sqrt 3 * Real.pi / 122880 * (ε 2 - ε 0) := by
      rw [h13]
      ring
    rw [heq, abs_mul, abs_of_nonneg (by positivity : (0 : ℝ) ≤ Real.sqrt 3 * Real.pi / 122880)]
    have htri : |ε 2 - ε 0| ≤ 1 := by
      have h2 := hεb 2
      have h0 := hεb 0
      rw [abs_le]
      constructor <;> linarith [h2.1, h2.2, h0.1, h0.2]
    calc Real.sqrt 3 * Real.pi / 122880 * |ε 2 - ε 0|
        ≤ Real.sqrt 3 * Real.pi / 122880 * 1 :=
          mul_le_mul_of_nonneg_left htri (by positivity)
      _ ≤ 0.001 := by
          nlinarith [mul_le_mul sqrt3_lt.le Real.pi_lt_d6.le Real.pi_pos.le
            (by norm_num : (0 : ℝ) ≤ 1.7321)]
  · simp only [hinv 1, hm1, Matrix.cons_val_one, Matrix.head_cons]
    have heq : y + (1 / 3 * (ε 0 * (Real.pi / 40960)) + -(2 / 3) * (ε 1 * (Real.pi / 40960))
        + 1 / 3 * (ε 2 * (Real.pi / 40960))) - y
        = Real.pi / 122880 * (ε 0 - 2 * ε 1 + ε 2) := by
      ring
    rw [heq, abs_mul, abs_of_nonneg (by positivity : (0 : ℝ) ≤ Real.pi / 122880)]
    have htri : |ε 0 - 2 * ε 1 + ε 2| ≤ 2 := by
      have h0 := hεb 0
      have h1 := hεb 1
      have h2 := hεb 2
      rw [abs_le]
      constructor <;> linarith [h0.1, h0.2, h1.1, h1.2, h2.1, h2.2]
    calc Real.pi / 122880 * |ε 0 - 2 * ε 1 + ε 2|
        ≤ Real.pi / 122880 * 2 :=
          mul_le_mul_of_nonneg_left htri (by positivity)
      _ ≤ 0.001 := by
          nlinarith [Real.pi_lt_d6]
  · simp only [hinv 2, hm2, Matrix.cons_val_two, Matrix.vecTail, Matrix.vecHead,
      Function.comp, Fin.succ_zero_eq_one, Fin.succ_one_eq_two,
      Matrix.cons_val_one, Matrix.head_cons, Matrix.cons_val_zero]
    have heq : (theta * (Real.pi / 180)
        + 1 / (3 * 0.125) * (ε 0 * (Real.pi / 40960) + ε 1 * (Real.pi / 40960)
          + ε 2 * (Real.pi / 40960))) * (180 / Real.pi) - theta
        = 3 / 256 * (ε 0 + ε 1 + ε 2) := by
      field_simp
      ring
    rw [heq]
    have h0 := hεb 0
    have h1 := hεb 1
    have h2 := hεb 2
    rw [abs_le]
    constructor <;> linarith [h0.1, h0.2, h1.1, h1.2, h2.1, h2.2]

/-- Witness for the amended round-trip at the zero body velocity. -/
theorem kinematics_roundtrip_approx_witness :
    maxRawComputed (wheelDegps 0 0 0 0.05 0.125) ≤ 3000 ∧
    (|(wheel_raw_to_body (body_to_wheel_raw 0 0 0 0.05 0.125 3000 0)
        (body_to_wheel_raw 0 0 0 0.05 0.125 3000 1)
        (body_to_wheel_raw 0 0 0 0.05 0.125 3000 2) 0.05 0.125).1 - 0| ≤ 0.001 ∧
     |(wheel_raw_to_body (body_to_wheel_raw 0 0 0 0.05 0.125 3000 0)
        (body_to_wheel_raw 0 0 0 0.05 0.125 3000 1)
        (body_to_wheel_raw 0 0 0 0.05 0.125 3000 2) 0.05 0.125).2.1 - 0| ≤ 0.001 ∧
     |(wheel_raw_to_body (body_to_wheel_raw 0 0 0 0.05 0.125 3000 0)
        (body_to_wheel_raw 0 0 0 0.05 0.125 3000 1)
        (body_to_wheel_raw 0 0 0 0.05 0.125 3000 2) 0.05 0.125).2.2 - 0| ≤ 0.018) := by
  have h0 : ∀ i, wheelDegps 0 0 0 0.05 0.125 i = 0 := by
    intro i
    rw [wheelDegps_spin]
    norm_num
  have hsat : maxRawComputed (wheelDegps 0 0 0 0.05 0.125) ≤ 3000 := by
    simp only [maxRawComputed, rawFloat, h0, abs_zero, zero_mul, max_self]
    norm_num
  exact ⟨hsat, kinematics_roundtrip_approx 0 0 0 hsat⟩

/-! ## send_action pipeline (lekiwi.py, lines 352-388)

The pure outcome of one `send_action` call: the connectivity check, the
suffix-based partition of the action map, the three velocity-key lookups
(Python raises `KeyError` on the first missing one, before any bus write or
present-position read), the safety clamp over the arm goals, the forward
kinematics for the wheel goals, and the returned merged map
`{**arm_goal_pos, **base_goal_vel}` — the clamped arm goals together with
the original (body-frame) velocity request. -/

def stripPos (s : String) : String := stripKey ".pos" s

structure SendOutcome where
  armWrites : List (String × ℝ)
  wheelWrites : Fin 3 → ℤ
  returned : List (String × ℝ)

noncomputable def sendAction (connected : Bool) (action : List (String × ℝ))
    (present : String → ℝ) (cfg : MaxRelCfg) : Except RobotError SendOutcome :=
  if connected then
    match lookupKey (action.filter (fun p => strEndsWith p.1 ".vel")) "x.vel" with
    | none => Except.error (RobotError.keyError "x.vel")
    | some xv =>
      match lookupKey (action.filter (fun p => strEndsWith p.1 ".vel")) "y.vel" with
      | none => Except.error (RobotError.keyError "y.vel")
      | some yv =>
        match lookupKey (action.filter (fun p => strEndsWith p.1 ".vel")) "theta.vel" with
        | none => Except.error (RobotError.keyError "theta.vel")
        | some tv =>
          Except.ok
            { armWrites :=
                (action.filter (fun p => strEndsWith p.1 ".pos")).map (fun p =>
                  (stripPos p.1, clampWith cfg (stripPos p.1) p.2 (present (stripPos p.1))))
              wheelWrites := body_to_wheel_raw xv yv tv 0.05 0.125 3000
              returned :=
                (action.filter (fun p => strEndsWith p.1 ".pos")).map (fun p =>
                  (p.1, clampWith cfg (stripPos p.1) p.2 (present (stripPos p.1))))
                ++ action.filter (fun p => strEndsWith p.1 ".vel") }
  else Except.error RobotError.notConnected

theorem floor_3000 : ⌊(3000 : ℝ)⌋ = 3000 := Int.floor_eq_iff.mpr (by norm_num)

theorem pyRound_3000 : pyRound (3000 : ℝ) = 3000 := by
  have hfr : Int.fract (3000 : ℝ) = 0 := by
    have h1 : Int.fract (3000 : ℝ) = 3000 - ⌊(3000 : ℝ)⌋ := rfl
    rw [h1, floor_3000]
    norm_num
  unfold pyRound
  rw [if_neg (by rw [hfr]; norm_num), round_eq,
    show (3000 : ℝ) + 1 / 2 = 6001 / 2 by norm_num,
    show ⌊(6001 / 2 : ℝ)⌋ = 3000 from Int.floor_eq_iff.mpr (by norm_num)]

/-- A spin command of 10000 deg/s saturates: every wheel write is capped to
exactly 3000 raw ticks/s. -/
theorem body_raw_saturated :
    ∀ i, body_to_wheel_raw 0 0 10000 0.05 0.125 3000 i = 3000 := by
  intro i
  have hw25 : ∀ j, wheelDegps 0 0 10000 0.05 0.125 j = 25000 := by
    intro j
    rw [wheelDegps_spin]
    norm_num
  have hmax : maxRawComputed (wheelDegps 0 0 10000 0.05 0.125) = 25000 * (512 / 45) := by
    simp only [maxRawComputed, rawFloat, hw25, steps_per_deg_eq, max_self]
    rw [abs_of_pos (by norm_num : (0 : ℝ) < 25000)]
  have hsat : maxRawComputed (wheelDegps 0 0 10000 0.05 0.125) > 3000 := by
    rw [hmax]
    norm_num
  have hsca : scaledWheelDegps 0 0 10000 0.05 0.125 3000 i * steps_per_deg = 3000 := by
    simp only [scaledWheelDegps]
    rw [if_pos hsat, hw25 i, hmax, steps_per_deg_eq]
    norm_num
  rw [body_to_wheel_raw,
    degps_to_raw_no_clamp (by
      rw [hsca, abs_of_pos (by norm_num : (0 : ℝ) < 3000)]),
    hsca, pyRound_3000]

/-- Decoding the saturated wheel writes back to the body frame gives a
theta of 105.46875 deg/s — not the requested 10000. -/
theorem inv_theta_3000 :
    (wheel_raw_to_body 3000 3000 3000 0.05 0.125).2.2 = 105.46875 := by
  have hbr : (0.125 : ℝ) ≠ 0 := by norm_num
  have hπ0 : Real.pi ≠ 0 := Real.pi_ne_zero
  have harg : (fun i =>
      (![raw_to_degps 3000, raw_to_degps 3000, raw_to_degps 3000] : Fin 3 → ℝ) i
        * (Real.pi / 180) * 0.05)
      = fun _ => (3000 : ℝ) / steps_per_deg * (Real.pi / 180) * 0.05 := by
    funext i
    fin_cases i <;> norm_num [raw_to_degps]
  show invVelocity 3000 3000 3000 0.05 0.125 2 * (180 / Real.pi) = 105.46875
  rw [invVelocity, mMat_inv 0.125 hbr, harg, (mInvE_mulVec 0.125 _).2.2,
    steps_per_deg_eq]
  field_simp
  ring

/-- C7 (counterexample). With a connected robot and the action
`{x: 0, y: 0, theta: 10000}`, `send_action` returns the original
`theta.vel = 10000` even though the uniform saturation scaling capped the
wheel writes to 3000 raw ticks/s — a body rate of 105.46875 deg/s.  The
returned entry therefore does not equal the value sent for that channel
after the forward kinematics transform and its uniform scaling. -/
theorem send_action_returns_counterexample :
    (sendAction true [("x.vel", 0), ("y.vel", 0), ("theta.vel", 10000)] (fun _ => 0)
        MaxRelCfg.noLimit
      = Except.ok
          { armWrites := []
            wheelWrites := body_to_wheel_raw 0 0 10000 0.05 0.125 3000
            returned := [("x.vel", 0), ("y.vel", 0), ("theta.vel", 10000)] }) ∧
    (∀ i, body_to_wheel_raw 0 0 10000 0.05 0.125 3000 i = 3000) ∧
    (wheel_raw_to_body 3000 3000 3000 0.05 0.125).2.2 = 105.46875 ∧
    (10000 : ℝ) ≠ 105.46875 :=
  ⟨rfl, body_raw_saturated, inv_theta_3000, by norm_num⟩

/-! ## Missing velocity keys (lekiwi.py, lines 364-368) -/

theorem lookupKey_filter_vel (action : List (String × ℝ)) (k : String)
    (hk : strEndsWith k ".vel" = true) :
    lookupKey (action.filter (fun p => strEndsWith p.1 ".vel")) k
      = lookupKey action k := by
  induction action with
  | nil => rfl
  | cons a rest ih =>
    rcases ha : strEndsWith a.1 ".vel" with _ | _
    · have hne : (a.1 == k) = false := by
        rcases hbk : (a.1 == k) with _ | _
        · rfl
        · have heq : a.1 = k := eq_of_beq hbk
          rw [heq, hk] at ha
          cases ha
      simpa [List.filter_cons, ha, lookupKey, List.find?, hne] using ih
    · rcases hbk : (a.1 == k) with _ | _
      · simpa [List.filter_cons, ha, lookupKey, List.find?, hbk] using ih
      · simp [List.filter_cons, ha, lookupKey, List.find?, hbk]

/-- C10. For a connected robot, whenever the action map lacks any of the
three velocity keys "x.vel", "y.vel", "theta.vel", `send_action` fails with
a KeyError — producing no outcome, hence before any bus write — so an
arm-position-only action cannot be sent. -/
theorem send_action_missing_key (action : List (String × ℝ)) (present : String → ℝ)
    (cfg : MaxRelCfg)
    (h : lookupKey action "x.vel" = none ∨ lookupKey action "y.vel" = none ∨
      lookupKey action "theta.vel" = none) :
    ∃ k, sendAction true action present cfg = Except.error (RobotError.keyError k) := by
  rw [sendAction, if_pos rfl]
  rw [lookupKey_filter_vel action "x.vel" (by decide),
    lookupKey_filter_vel action "y.vel" (by decide),
    lookupKey_filter_vel action "theta.vel" (by decide)]
  rcases h with hx | hy | ht
  · rw [hx]
    exact ⟨"x.vel", rfl⟩
  · rw [hy]
    rcases hxv : lookupKey action "x.vel" with _ | xv
    · exact ⟨"x.vel", rfl⟩
    · exact ⟨"y.vel", rfl⟩
  · rw [ht]
    rcases hxv : lookupKey action "x.vel" with _ | xv
    · exact ⟨"x.vel", rfl⟩
    · rcases hyv : lookupKey action "y.vel" with _ | yv
      · exact ⟨"y.vel", rfl⟩
      · exact ⟨"theta.vel", rfl⟩

/-- Witness for C10 at an arm-position-only action. -/
theorem send_action_missing_key_witness :
    ∃ k, sendAction true [("arm_shoulder_pan.pos", (5 : ℝ))] (fun _ => 0)
      MaxRelCfg.noLimit = Except.error (RobotError.keyError k) :=
  send_action_missing_key [("arm_shoulder_pan.pos", (5 : ℝ))] (fun _ => 0)
    MaxRelCfg.noLimit (Or.inl rfl)

/-- C2 (counterexample). For the (nonsensical but representable) negative
limit -1 with goal 1 and present position 0, the clamp fires and produces
`0 + sign(1) * (-1) = -1`: the delta's absolute value 1 is not at most the
limit -1, and the command moves in the opposite direction of the request.
The clamp guarantees therefore need the limit to be nonnegative. -/
theorem safety_clamp_counterexample :
    clampGoal (-1) 1 0 = -1 ∧
    ¬ (|clampGoal (-1) 1 0 - 0| ≤ -1) ∧
    ¬ (clampGoal (-1) 1 0 - 0 = 0 ∨
        Real.sign (clampGoal (-1) 1 0 - 0) = Real.sign (1 - 0)) := by
  have h : clampGoal (-1) 1 0 = -1 := by
    unfold clampGoal
    rw [if_pos (by rw [show ((1 : ℝ) - 0) = 1 by norm_num, abs_one]; norm_num),
      Real.sign_of_pos (by norm_num : (0 : ℝ) < 1 - 0)]
    norm_num
  refine ⟨h, ?_, ?_⟩
  · rw [h, show ((-1 : ℝ) - 0) = -1 by norm_num, abs_neg, abs_one]
    norm_num
  · rw [h]
    push_neg
    refine ⟨by norm_num, ?_⟩
    rw [show ((-1 : ℝ) - 0) = -1 by norm_num, show ((1 : ℝ) - 0) = 1 by norm_num,
      Real.sign_of_neg (by norm_num : (-1 : ℝ) < 0),
      Real.sign_of_pos (by norm_num : (0 : ℝ) < 1)]
    norm_num

/-! ### What send_action returns, for every action map -/

/-- Two distinct four-character suffixes cannot both end the same key. -/
theorem not_pos_and_vel (k : String) :
    ¬ (strEndsWith k ".pos" = true ∧ strEndsWith k ".vel" = true) := by
  rintro ⟨hp, hv⟩
  unfold strEndsWith List.isSuffixOf at hp hv
  rw [show ".pos".data.reverse = ['s', 'o', 'p', '.'] from rfl] at hp
  rw [show ".vel".data.reverse = ['l', 'e', 'v', '.'] from rfl] at hv
  cases hl : k.data.reverse with
  | nil =>
    rw [hl] at hp
    simp [List.isPrefixOf] at hp
  | cons b bs =>
    rw [hl] at hp hv
    simp [List.isPrefixOf] at hp hv
    have hb2 : 'l' = 's' := hv.1.trans hp.1.symm
    exact absurd hb2 (by decide)

theorem pos_key_ne (k kv : String) (hp : strEndsWith k ".pos" = true)
    (hv : strEndsWith kv ".vel" = true) : (k == kv) = false := by
  rcases hb : (k == kv) with _ | _
  · rfl
  · exact absurd ⟨hp, (eq_of_beq hb) ▸ hv⟩ (not_pos_and_vel k)

/-- A lookup skips over a prefix none of whose keys match. -/
theorem lookupKey_skip_arm (A V : List (String × ℝ)) (k : String)
    (h : ∀ p ∈ A, (p.1 == k) = false) :
    lookupKey (A ++ V) k = lookupKey V k := by
  induction A with
  | nil => rfl
  | cons a rest ih =>
    have ha := h a (List.mem_cons_self a rest)
    rw [List.cons_append, lookupKey, List.find?_cons_of_neg _ (by simp [ha])]
    exact ih (fun p hp => h p (List.mem_cons_of_mem a hp))

/-- C7 (amended). What `send_action` returns, for every connected robot,
every configuration, and every input action map that carries the three
velocity keys: the outcome's arm bus writes are the clamped position goals,
the returned map holds exactly those clamped goals (same values, original
keys) merged with the original body-frame velocity request, and looking the
velocity keys up in the returned map gives back the request unchanged —
the forward kinematics transform and its uniform scaling affect only the
wheel writes.  The scope hypothesis `hwf` restricts position keys to arm
actuators when a clamp limit is configured, because the source's
present-position dict covers only arm actuators and raises KeyError
otherwise — a path outside this claim. -/
theorem send_action_returns (action : List (String × ℝ)) (present : String → ℝ)
    (cfg : MaxRelCfg) (xv yv tv : ℝ)
    (hwf : cfg = MaxRelCfg.noLimit ∨
      ∀ p ∈ action, strEndsWith p.1 ".pos" = true → stripPos p.1 ∈ armMotors)
    (hx : lookupKey action "x.vel" = some xv)
    (hy : lookupKey action "y.vel" = some yv)
    (ht : lookupKey action "theta.vel" = some tv) :
    ∃ o : SendOutcome, sendAction true action present cfg = Except.ok o ∧
      o.wheelWrites = body_to_wheel_raw xv yv tv 0.05 0.125 3000 ∧
      o.armWrites = (action.filter (fun p => strEndsWith p.1 ".pos")).map (fun p =>
        (stripPos p.1, clampWith cfg (stripPos p.1) p.2 (present (stripPos p.1)))) ∧
      o.returned = (action.filter (fun p => strEndsWith p.1 ".pos")).map (fun p =>
          (p.1, clampWith cfg (stripPos p.1) p.2 (present (stripPos p.1))))
        ++ action.filter (fun p => strEndsWith p.1 ".vel") ∧
      lookupKey o.returned "x.vel" = some xv ∧
      lookupKey o.returned "y.vel" = some yv ∧
      lookupKey o.returned "theta.vel" = some tv := by
  have harm : ∀ p ∈ (action.filter (fun p => strEndsWith p.1 ".pos")).map (fun p =>
      (p.1, clampWith cfg (stripPos p.1) p.2 (present (stripPos p.1)))),
      ∀ kv : String, strEndsWith kv ".vel" = true → (p.1 == kv) = false := by
    intro p hp kv hkv
    obtain ⟨q, hq, rfl⟩ := List.mem_map.mp hp
    exact pos_key_ne q.1 kv (List.mem_filter.mp hq).2 hkv
  rw [sendAction, if_pos rfl,
    lookupKey_filter_vel action "x.vel" (by decide), hx,
    lookupKey_filter_vel action "y.vel" (by decide), hy,
    lookupKey_filter_vel action "theta.vel" (by decide), ht]
  refine ⟨_, rfl, rfl, rfl, rfl, ?_, ?_, ?_⟩
  · rw [lookupKey_skip_arm _ _ _ (fun p hp => harm p hp "x.vel" (by decide)),
      lookupKey_filter_vel action "x.vel" (by decide), hx]
  · rw [lookupKey_skip_arm _ _ _ (fun p hp => harm p hp "y.vel" (by decide)),
      lookupKey_filter_vel action "y.vel" (by decide), hy]
  · rw [lookupKey_skip_arm _ _ _ (fun p hp => harm p hp "theta.vel" (by decide)),
      lookupKey_filter_vel action "theta.vel" (by decide), ht]

/-- Witness for the amended C7 at a concrete action with one arm goal and
the three velocities: the clamped arm goal is both written and returned,
and the returned velocities are the original request. -/
theorem send_action_returns_witness :
    lookupKey [("arm_shoulder_pan.pos", (5 : ℝ)), ("x.vel", 1), ("y.vel", 2),
        ("theta.vel", 3)] "x.vel" = some 1 ∧
    ∃ o : SendOutcome,
      sendAction true [("arm_shoulder_pan.pos", (5 : ℝ)), ("x.vel", 1), ("y.vel", 2),
          ("theta.vel", 3)] (fun _ => 0) MaxRelCfg.noLimit = Except.ok o ∧
      o.wheelWrites = body_to_wheel_raw 1 2 3 0.05 0.125 3000 ∧
      o.armWrites = [("arm_shoulder_pan",
        clampWith MaxRelCfg.noLimit "arm_shoulder_pan" 5 0)] ∧
      o.returned = [("arm_shoulder_pan.pos",
          clampWith MaxRelCfg.noLimit "arm_shoulder_pan" 5 0),
        ("x.vel", 1), ("y.vel", 2), ("theta.vel", 3)] ∧
      lookupKey o.returned "x.vel" = some 1 ∧
      lookupKey o.returned "y.vel" = some 2 ∧
      lookupKey o.returned "theta.vel" = some 3 := by
  obtain ⟨o, h1, h2, h3, h4, h5, h6, h7⟩ :=
    send_action_returns [("arm_shoulder_pan.pos", (5 : ℝ)), ("x.vel", 1), ("y.vel", 2),
      ("theta.vel", 3)] (fun _ => 0) MaxRelCfg.noLimit 1 2 3 (Or.inl rfl) rfl rfl rfl
  exact ⟨rfl, o, h1, h2, h3.trans rfl, h4.trans rfl, h5, h6, h7⟩
